import Mathlib

/-!
Verification development for the Visual Health e-commerce backend
(`src/main.py`, `src/schemas.py`): a shallow embedding of its data model
(one Lean structure per Pydantic schema), of its MongoDB collections
(association lists of store-generated numeric identifiers to documents),
and of the request handlers the testable properties concern
(`register`, `add_address`, `delete_address`, `list_products`,
`get_delivery_fee`, `checkout`, `update_order_status`).

Conventions of the embedding:
* Python `float` amounts (prices, fees, totals) are modelled as `ℚ`;
  the claims under verification are structural identities that do not
  depend on rounding behaviour.
* Timestamps are an abstract clock value `ℕ` passed to each handler
  (`datetime.now(timezone.utc)` in the source).
* MongoDB's `find_one`/`update_one` act on the first document matching
  the filter, in insertion order; `update_one` reports a matched count,
  `$pull` additionally a modified count, exactly as the handlers use them.
* The anchored case-insensitive regex filter
  `{"wilaya": {"$regex": "^w$", "$options": "i"}}` used by the two fee
  lookups is modelled as case-insensitive string equality (ASCII case
  folding); query strings containing regex metacharacters are outside
  the model, as are non-ASCII case foldings.
* A handler returns its (possibly updated) database together with
  `Except ℕ α`, the `ℕ` being the HTTP status code of a raised
  `HTTPException`; any mutation issued before the raise is reflected in
  the returned database.
-/

namespace VH

/-- Lower-cased character list of a string, the domain on which all
case-insensitive comparisons of the service operate (ASCII case
folding via `Char.toLower`). -/
def lowerChars (s : String) : List Char :=
  s.data.map Char.toLower

/-- Case-insensitive string equality: the semantics of the anchored
regex `^w$` with option `i` used by `get_delivery_fee` and `checkout`
(for metacharacter-free `w`). -/
def ciEq (a b : String) : Bool :=
  lowerChars a == lowerChars b

/-- Substring test on character lists: does `pat` occur contiguously in
`l`? Executable form of `List.IsInfix`. -/
def containsSub : List Char → List Char → Bool
  | [], pat => pat.isEmpty
  | l@(_ :: tl), pat => pat.isPrefixOf l || containsSub tl pat

/-- Case-insensitive substring test: the semantics of the unanchored
regex filter `{"$regex": q, "$options": "i"}` that `list_products`
applies to `title`, `description` and `brand` (for metacharacter-free
`q`). -/
def containsCI (s pat : String) : Bool :=
  containsSub (lowerChars s) (lowerChars pat)

/-- Regex match against an optional stored field: a missing (`None`)
field never matches a `$regex` filter in MongoDB. -/
def optContainsCI (o : Option String) (pat : String) : Bool :=
  match o with
  | none => false
  | some s => containsCI s pat

/-- `schemas.Address`. -/
structure Address where
  label : String
  full_name : String
  phone : String
  wilaya : String
  commune : Option String
  street : String
  notes : Option String
deriving DecidableEq

/-- `schemas.User`. `password_hash` is the stored derived value. -/
structure User where
  name : String
  email : String
  password_hash : String
  phone : Option String
  addresses : List Address
  created_at : Option ℕ
  updated_at : Option ℕ
deriving DecidableEq

/-- `schemas.Product`. `category` is one of the four catalogue
categories (the pydantic `Literal` is kept as a plain string; the
handlers under verification never construct products). -/
structure Product where
  title : String
  description : Option String
  price : ℚ
  brand : Option String
  color : Option String
  frame_shape : Option String
  type : Option String
  category : String
  images : List String
  in_stock : Bool
  sku : Option String
deriving DecidableEq

/-- `schemas.OrderItem`: the client-supplied line-item snapshot.
`quantity` carries the pydantic bound `ge=1` as a validator, not as a
type invariant; no claim under verification depends on it. -/
structure OrderItem where
  product_id : String
  title : String
  price : ℚ
  quantity : ℕ
  image : Option String
deriving DecidableEq

/-- `schemas.Order`. `status` is a plain string: the pydantic
`Literal` restricts construction, and `update_order_status` checks the
vocabulary explicitly before writing. -/
structure Order where
  user_id : String
  items : List OrderItem
  address : Address
  wilaya : String
  subtotal : ℚ
  delivery_fee : ℚ
  total : ℚ
  status : String
  created_at : Option ℕ
  updated_at : Option ℕ
deriving DecidableEq

/-- `schemas.DeliveryFee`: one row of the fee table. -/
structure DeliveryFee where
  wilaya : String
  fee : ℚ
deriving DecidableEq

/-- The document store: one association list per collection the claims
touch, keyed by store-generated identifiers (`nextId` is the generator
state). MongoDB's natural order is insertion order. -/
structure DocDB where
  users : List (ℕ × User)
  orders : List (ℕ × Order)
  fees : List DeliveryFee
  products : List Product
  nextId : ℕ
deriving DecidableEq

/-- `find_one({"_id": i})` on a collection: the first document with the
given identifier. -/
def lookupDoc {α : Type} (l : List (ℕ × α)) (i : ℕ) : Option α :=
  (l.find? (fun p => p.1 == i)).map (·.2)

/-- `update_one({"_id": i}, ...)` on a collection: applies `f` to the
first document with identifier `i` and returns the new collection
together with the matched count (0 or 1). -/
def updateOne {α : Type} (l : List (ℕ × α)) (i : ℕ) (f : α → α) :
    List (ℕ × α) × ℕ :=
  match l with
  | [] => ([], 0)
  | (j, x) :: rest =>
    if j = i then ((j, f x) :: rest, 1)
    else
      let r := updateOne rest i f
      ((j, x) :: r.1, r.2)

/-- Modelled from the spec: `database.create_document` (not under
`src/`) is the Document Store Adapter's insert-one — it persists the
document with a creation timestamp and returns the store-generated
identifier. Instance for the `order` collection. -/
def insertOrder (db : DocDB) (now : ℕ) (o : Order) : DocDB × ℕ :=
  ({ db with
      orders := db.orders ++ [(db.nextId, { o with created_at := some now })],
      nextId := db.nextId + 1 },
   db.nextId)

/-- Modelled from the spec: `database.create_document` (not under
`src/`), insert-one for the `user` collection. -/
def insertUser (db : DocDB) (now : ℕ) (u : User) : DocDB × ℕ :=
  ({ db with
      users := db.users ++ [(db.nextId, { u with created_at := some now })],
      nextId := db.nextId + 1 },
   db.nextId)

/-- Request body of `POST /auth/register`. -/
structure RegisterRequest where
  name : String
  email : String
  password : String
deriving DecidableEq

/-- `register` (`POST /auth/register`): pre-checks email uniqueness with
`find_one({"email": email})`, raises 400 on a hit, otherwise creates the
user and returns its identifier and a recomputable token. The SHA-256
`hash_password` is passed in as the abstract `hash` function. -/
def register (hash : String → String) (db : DocDB) (now : ℕ)
    (payload : RegisterRequest) : DocDB × Except ℕ (ℕ × String) :=
  match db.users.find? (fun p => p.2.email == payload.email) with
  | some _ => (db, .error 400)
  | none =>
    let user : User :=
      { name := payload.name, email := payload.email,
        password_hash := hash payload.password, phone := none,
        addresses := [], created_at := none, updated_at := none }
    let r := insertUser db now user
    (r.1, .ok (r.2, hash (payload.email ++ payload.password)))

/-- `add_address` (`POST /users/{user_id}/addresses`): `$push` onto the
user's address array via `update_one`; 404 when the matched count is 0. -/
def add_address (db : DocDB) (user_id : ℕ) (addr : Address) :
    DocDB × Except ℕ Bool :=
  let r := updateOne db.users user_id
    (fun u => { u with addresses := u.addresses ++ [addr] })
  let db' := { db with users := r.1 }
  if r.2 = 0 then (db', .error 404) else (db', .ok true)

/-- `update_one({"_id": uid}, {"$pull": {"addresses": {"label": label}}})`:
removes every address with the given label from the first user with the
given identifier; returns the new collection, the matched count and the
modified count (1 exactly when the pull changed the array). -/
def pullAddress (l : List (ℕ × User)) (uid : ℕ) (label : String) :
    List (ℕ × User) × ℕ × ℕ :=
  match l with
  | [] => ([], 0, 0)
  | (j, u) :: rest =>
    if j = uid then
      let modified := if u.addresses.any (fun a => a.label == label) then 1 else 0
      ((j, { u with addresses := u.addresses.filter (fun a => ¬ a.label == label) }) :: rest,
       1, modified)
    else
      let r := pullAddress rest uid label
      ((j, u) :: r.1, r.2.1, r.2.2)

/-- `delete_address` (`DELETE /users/{user_id}/addresses`): `$pull` of
the labelled addresses; the response is `{"deleted": modified_count > 0}`
— the handler raises no exception. -/
def delete_address (db : DocDB) (user_id : ℕ) (label : String) :
    DocDB × Bool :=
  let r := pullAddress db.users user_id label
  ({ db with users := r.1 }, decide (0 < r.2.2))

/-- `find_one` over the `deliveryfee` collection with the anchored
case-insensitive regex on `wilaya`: the shared fee-resolution rule of
`get_delivery_fee` and `checkout`. -/
def findFee (fees : List DeliveryFee) (w : String) : Option DeliveryFee :=
  fees.find? (fun f => ciEq f.wilaya w)

/-- `get_delivery_fee` (`GET /delivery/fee`): 404 when no fee row
matches, otherwise the stored row's `wilaya` and `fee`. -/
def get_delivery_fee (db : DocDB) (wilaya : String) :
    Except ℕ (String × ℚ) :=
  match findFee db.fees wilaya with
  | none => .error 404
  | some f => .ok (f.wilaya, f.fee)

/-- Request body of `POST /orders/checkout`: note there is no
client-supplied `subtotal` or `total` field. -/
structure CheckoutRequest where
  user_id : String
  items : List OrderItem
  address : Address
  wilaya : String
deriving DecidableEq

/-- `sum([it.price * it.quantity for it in payload.items])`. -/
def subtotalOf (items : List OrderItem) : ℚ :=
  (items.map (fun it => it.price * (it.quantity : ℚ))).sum

/-- `checkout` (`POST /orders/checkout`): computes the subtotal from the
request items, resolves the delivery fee case-insensitively (400 when
unresolvable, before any write), computes `total = subtotal + fee`, and
persists the order snapshot with the pydantic default status
`en_preparation`. Returns the new order's identifier, total and fee. -/
def checkout (db : DocDB) (now : ℕ) (payload : CheckoutRequest) :
    DocDB × Except ℕ (ℕ × ℚ × ℚ) :=
  let subtotal := subtotalOf payload.items
  match findFee db.fees payload.wilaya with
  | none => (db, .error 400)
  | some feeDoc =>
    let delivery_fee := feeDoc.fee
    let total := subtotal + delivery_fee
    let order : Order :=
      { user_id := payload.user_id, items := payload.items,
        address := payload.address, wilaya := payload.wilaya,
        subtotal := subtotal, delivery_fee := delivery_fee,
        total := total, status := "en_preparation",
        created_at := none, updated_at := none }
    let r := insertOrder db now order
    (r.1, .ok (r.2, total, delivery_fee))

/-- The five exact-match string dimensions of the product filter. -/
inductive StrField where
  | category
  | brand
  | color
  | frame_shape
  | type
deriving DecidableEq

/-- The stored value of a filter dimension on a product document
(`category` is required, the others optional — a missing field is
`None`, stored as null, and an equality filter on a string never
matches null). -/
def fieldGet (p : Product) : StrField → Option String
  | .category => some p.category
  | .brand => p.brand
  | .color => p.color
  | .frame_shape => p.frame_shape
  | .type => p.type

/-- One entry of the MongoDB filter document `filt` that
`list_products` builds: an exact string match, the `price` range
clause (`$gte`/`$lte`), or the `$or` of the three case-insensitive
regex clauses for the free-text query. -/
inductive Cond where
  | eqStr (field : StrField) (value : String)
  | priceRange (pmin pmax : Option ℚ)
  | textOr (q : String)
deriving DecidableEq

/-- MongoDB evaluation of one filter entry against a product document. -/
def evalCond (p : Product) : Cond → Bool
  | .eqStr f v => fieldGet p f == some v
  | .priceRange pmin pmax =>
    (match pmin with | none => true | some m => decide (m ≤ p.price)) &&
    (match pmax with | none => true | some M => decide (p.price ≤ M))
  | .textOr q =>
    containsCI p.title q || optContainsCI p.description q ||
      optContainsCI p.brand q

/-- A document matches the filter when it satisfies every entry
(MongoDB filter documents conjoin their keys). -/
def evalFilter (p : Product) (cs : List Cond) : Bool :=
  cs.all (evalCond p)

/-- `if param: filt[field] = param` — the clause an optional exact-match
parameter contributes; Python truthiness skips both `None` and `""`. -/
def strParam (o : Option String) (f : StrField) : List Cond :=
  match o with
  | none => []
  | some s => if s = "" then [] else [Cond.eqStr f s]

/-- Query parameters of `GET /products`. `limit` keeps pymongo's
`cursor.limit` convention in which 0 means no limit. -/
structure ListParams where
  q : Option String
  category : Option String
  brand : Option String
  color : Option String
  frame_shape : Option String
  type : Option String
  price_min : Option ℚ
  price_max : Option ℚ
  limit : ℕ
deriving DecidableEq

/-- `if price_min is not None or price_max is not None: filt["price"] = price_q`
— the `price` clause is added when at least one bound is provided. -/
def priceParam (pmin pmax : Option ℚ) : List Cond :=
  if pmin.isSome || pmax.isSome then [Cond.priceRange pmin pmax] else []

/-- `if q: filt["$or"] = [...]` — the free-text clause is added when `q`
is truthy (neither `None` nor `""`). -/
def qParam (q : Option String) : List Cond :=
  match q with
  | none => []
  | some s => if s = "" then [] else [Cond.textOr s]

/-- The filter document `filt` exactly as `list_products` builds it:
each provided (truthy) exact-match parameter, then the `price` clause
when at least one bound is present, then the `$or` free-text clause
when `q` is truthy. -/
def buildFilter (ps : ListParams) : List Cond :=
  strParam ps.category .category ++ strParam ps.brand .brand ++
    strParam ps.color .color ++ strParam ps.frame_shape .frame_shape ++
    strParam ps.type .type ++
    priceParam ps.price_min ps.price_max ++ qParam ps.q

/-- `list_products` (`GET /products`): `db["product"].find(filt).limit(limit)`
in natural (insertion) order. -/
def list_products (db : DocDB) (ps : ListParams) : List Product :=
  let matched := db.products.filter (fun p => evalFilter p (buildFilter ps))
  if ps.limit = 0 then matched else matched.take ps.limit

/-- The closed status vocabulary of `update_order_status`. -/
def allowedStatuses : List String :=
  ["en_preparation", "expediee", "en_cours_de_livraison", "livree"]

/-- `update_order_status` (`PATCH /orders/{order_id}/status`): rejects a
status outside the vocabulary with 400 before touching the store; then
`update_one` sets `status` and refreshes `updated_at`, and a matched
count of 0 yields 404. -/
def update_order_status (db : DocDB) (now : ℕ) (order_id : ℕ)
    (status : String) : DocDB × Except ℕ Bool :=
  if ! allowedStatuses.contains status then (db, .error 400)
  else
    let r := updateOne db.orders order_id
      (fun o => { o with status := status, updated_at := some now })
    let db' := { db with orders := r.1 }
    if r.2 = 0 then (db', .error 404) else (db', .ok true)

/-! Specification-side predicates: the observable conditions the spec
states for the product listing, phrased independently of the filter
document the code builds. -/

/-- The free-text condition of the spec: `q` occurs case-insensitively
as a substring of the title, of the description, or of the brand. -/
def qTextMatch (q : String) (p : Product) : Prop :=
  lowerChars q <:+: lowerChars p.title ∨
    (∃ d, p.description = some d ∧ lowerChars q <:+: lowerChars d) ∨
    (∃ b, p.brand = some b ∧ lowerChars q <:+: lowerChars b)

/-- The constraint a provided (truthy) exact-match parameter imposes;
an absent parameter imposes none. -/
def StrOk (o : Option String) (f : StrField) (p : Product) : Prop :=
  ∀ s, o = some s → s ≠ "" → fieldGet p f = some s

/-- The inclusive price-range constraint: each provided bound is an
inclusive inequality, an absent bound imposes none. -/
def PriceOk (pmin pmax : Option ℚ) (p : Product) : Prop :=
  (∀ a, pmin = some a → a ≤ p.price) ∧ (∀ b, pmax = some b → p.price ≤ b)

/-- The constraint a provided (truthy) free-text parameter imposes. -/
def QOk (q : Option String) (p : Product) : Prop :=
  ∀ s, q = some s → s ≠ "" → qTextMatch s p

/-- A product satisfies every constraint the spec derives from the
provided parameters: the logical AND of all dimensions. -/
def MatchesSpec (ps : ListParams) (p : Product) : Prop :=
  StrOk ps.category .category p ∧ StrOk ps.brand .brand p ∧
    StrOk ps.color .color p ∧ StrOk ps.frame_shape .frame_shape p ∧
    StrOk ps.type .type p ∧ PriceOk ps.price_min ps.price_max p ∧
    QOk ps.q p

/-- The result-size cap does not truncate: either `limit` is 0 (pymongo:
no limit) or the matched set fits under it. -/
def noTruncation (db : DocDB) (ps : ListParams) : Prop :=
  ps.limit = 0 ∨
    (db.products.filter (fun p => evalFilter p (buildFilter ps))).length ≤
      ps.limit

/-! Concrete sample data used by the witnesses, mirroring the seed data
of `admin_seed` (`Alger` fee 400, a lens product priced 2500). -/

/-- Sample fee row: wilaya `Alger`, fee 400. -/
def feeAlger : DeliveryFee := { wilaya := "Alger", fee := 400 }

/-- Sample address in Alger. -/
def addrAlger : Address :=
  { label := "Home", full_name := "Ali B", phone := "0550000000",
    wilaya := "Alger", commune := none, street := "Rue 1", notes := none }

/-- Sample line item: unit price 2500, quantity 1. -/
def itemLens : OrderItem :=
  { product_id := "p1", title := "Lentilles journalieres", price := 2500,
    quantity := 1, image := none }

/-- Sample persisted order, consistent with a checkout of `itemLens`
delivered to Alger. -/
def orderSample : Order :=
  { user_id := "u1", items := [itemLens], address := addrAlger,
    wilaya := "Alger", subtotal := 2500, delivery_fee := 400,
    total := 2900, status := "en_preparation", created_at := some 0,
    updated_at := none }

/-- Sample user owning one address labelled `Home`. -/
def userSample : User :=
  { name := "Ali", email := "ali@example.com", password_hash := "h",
    phone := none, addresses := [addrAlger], created_at := some 0,
    updated_at := none }

/-- Sample catalogue product matched by the free-text query `lentille`. -/
def productLens : Product :=
  { title := "Lentilles journalieres FreshLook", description := some "Confort quotidien.",
    price := 2500, brand := some "FreshLook", color := some "vert",
    frame_shape := none, type := none, category := "lentilles",
    images := [], in_stock := true, sku := none }

/-- Sample catalogue product priced exactly at a bound (1000). -/
def productSolution : Product :=
  { title := "Solution saline", description := none, price := 1000,
    brand := some "OptiCare", color := none, frame_shape := none,
    type := none, category := "solutions", images := [], in_stock := true,
    sku := none }

/-- Sample database holding one user, one order, one fee row and two
products. -/
def dbSample : DocDB :=
  { users := [(0, userSample)], orders := [(1, orderSample)],
    fees := [feeAlger], products := [productLens, productSolution],
    nextId := 2 }

/-- Sample checkout request for one lens delivered to `alger`
(lower case, to exercise the case-insensitive fee resolution). -/
def checkoutSample : CheckoutRequest :=
  { user_id := "u1", items := [itemLens], address := addrAlger,
    wilaya := "alger" }

/-- Sample checkout request for a wilaya with no configured fee. -/
def checkoutNoFee : CheckoutRequest :=
  { user_id := "u1", items := [itemLens], address := addrAlger,
    wilaya := "Paris" }

/-- Sample checkout request with an empty cart. -/
def checkoutEmpty : CheckoutRequest :=
  { user_id := "u1", items := [], address := addrAlger, wilaya := "Alger" }

/-- Sample registration request reusing `userSample`'s email. -/
def registerDup : RegisterRequest :=
  { name := "Ali2", email := "ali@example.com", password := "pw" }

/-- Query parameters searching for `lentille`, everything else absent. -/
def lensSearch : ListParams :=
  { q := some "lentille", category := none, brand := none, color := none,
    frame_shape := none, type := none, price_min := none,
    price_max := none, limit := 50 }

/-- Query parameters with the inclusive price range `[1000, 5000]`. -/
def priceSearch : ListParams :=
  { q := none, category := none, brand := none, color := none,
    frame_shape := none, type := none, price_min := some 1000,
    price_max := some 5000, limit := 50 }

/-! Generic lemmas about the document-store operations. -/

theorem contains_iff (l : List String) (s : String) :
    l.contains s = true ↔ s ∈ l := by
  simp [List.contains, List.elem_iff]

theorem lookupDoc_cons {α : Type} (j : ℕ) (x : α) (rest : List (ℕ × α))
    (i : ℕ) :
    lookupDoc ((j, x) :: rest) i = if j = i then some x else lookupDoc rest i := by
  by_cases h : j = i
  · simp [lookupDoc, List.find?, h]
  · have hb : (j == i) = false := by simp [h]
    simp [lookupDoc, List.find?, h, hb]

theorem updateOne_cons {α : Type} (j : ℕ) (x : α) (rest : List (ℕ × α))
    (i : ℕ) (f : α → α) :
    updateOne ((j, x) :: rest) i f =
      if j = i then ((j, f x) :: rest, 1)
      else ((j, x) :: (updateOne rest i f).1, (updateOne rest i f).2) := by
  by_cases h : j = i <;> simp [updateOne, h]

theorem updateOne_nomatch {α : Type} (l : List (ℕ × α)) (i : ℕ) (f : α → α)
    (h : lookupDoc l i = none) : updateOne l i f = (l, 0) := by
  induction l with
  | nil => rfl
  | cons hd tl ih =>
    obtain ⟨j, x⟩ := hd
    rw [lookupDoc_cons] at h
    by_cases hji : j = i
    · simp [hji] at h
    · rw [updateOne_cons]
      simp only [hji, if_false]
      rw [ih (by simpa [hji] using h)]

theorem updateOne_match {α : Type} (l : List (ℕ × α)) (i : ℕ) (f : α → α)
    (x : α) (h : lookupDoc l i = some x) :
    (updateOne l i f).2 = 1 ∧
      lookupDoc (updateOne l i f).1 i = some (f x) := by
  induction l with
  | nil => simp [lookupDoc] at h
  | cons hd tl ih =>
    obtain ⟨j, y⟩ := hd
    rw [lookupDoc_cons] at h
    rw [updateOne_cons]
    by_cases hji : j = i
    · simp only [hji, if_true] at h ⊢
      obtain rfl : y = x := by simpa using h
      simp [lookupDoc_cons]
    · simp only [hji, if_false] at h ⊢
      have := ih (by simpa [hji] using h)
      simp [lookupDoc_cons, hji, this.1, this.2]

theorem updateOne_map_proj {α β : Type} (l : List (ℕ × α)) (i : ℕ)
    (f : α → α) (g : α → β) (hg : ∀ x, g (f x) = g x) :
    ((updateOne l i f).1).map (fun p => (p.1, g p.2)) =
      l.map (fun p => (p.1, g p.2)) := by
  induction l with
  | nil => rfl
  | cons hd tl ih =>
    obtain ⟨j, x⟩ := hd
    rw [updateOne_cons]
    by_cases hji : j = i <;> simp [hji, hg, ih]

theorem updateOne_preserves {α : Type} (P : α → Prop) (l : List (ℕ × α))
    (i : ℕ) (f : α → α) (hf : ∀ x, P x → P (f x)) (h : ∀ p ∈ l, P p.2) :
    ∀ p ∈ (updateOne l i f).1, P p.2 := by
  induction l with
  | nil => simp [updateOne]
  | cons hd tl ih =>
    obtain ⟨j, x⟩ := hd
    rw [updateOne_cons]
    by_cases hji : j = i
    · simp only [hji, if_true]
      intro p hp
      rcases List.mem_cons.mp hp with rfl | hp'
      · exact hf x (h (j, x) (by simp))
      · exact h p (List.mem_cons_of_mem _ hp')
    · simp only [hji, if_false]
      intro p hp
      rcases List.mem_cons.mp hp with rfl | hp'
      · exact h (j, x) (by simp)
      · exact ih (fun r hr => h r (List.mem_cons_of_mem _ hr)) p hp'

theorem pullAddress_cons (j : ℕ) (u : User) (rest : List (ℕ × User))
    (uid : ℕ) (label : String) :
    pullAddress ((j, u) :: rest) uid label =
      if j = uid then
        ((j, { u with
            addresses := u.addresses.filter (fun a => ¬ a.label == label) })
          :: rest,
         1,
         if u.addresses.any (fun a => a.label == label) then 1 else 0)
      else
        ((j, u) :: (pullAddress rest uid label).1,
         (pullAddress rest uid label).2.1, (pullAddress rest uid label).2.2) := by
  by_cases h : j = uid <;> simp [pullAddress, h]

theorem pullAddress_modified_iff (l : List (ℕ × User)) (uid : ℕ)
    (label : String) :
    0 < (pullAddress l uid label).2.2 ↔
      ∃ u, lookupDoc l uid = some u ∧ ∃ a ∈ u.addresses, a.label = label := by
  induction l with
  | nil => simp [pullAddress, lookupDoc]
  | cons hd tl ih =>
    obtain ⟨j, u⟩ := hd
    rw [pullAddress_cons, lookupDoc_cons]
    by_cases hji : j = uid
    · by_cases ha : u.addresses.any (fun a => a.label == label) = true
      · simp only [hji, if_true, ha]
        simp only [List.any_eq_true, beq_iff_eq] at ha
        simp only [Option.some.injEq]
        exact iff_of_true (by norm_num)
          ⟨u, rfl, by simpa using ha⟩
      · simp only [hji, if_true, if_neg ha]
        simp only [List.any_eq_true, beq_iff_eq, not_exists, not_and] at ha
        refine iff_of_false (by norm_num) ?_
        rintro ⟨u', hu', a, hmem, heq⟩
        obtain rfl : u = u' := by simpa using hu'
        exact ha a hmem heq
    · simp only [hji, if_false]
      exact ih

theorem findFee_none_iff (fees : List DeliveryFee) (w : String) :
    findFee fees w = none ↔
      ∀ f ∈ fees, lowerChars f.wilaya ≠ lowerChars w := by
  simp [findFee, List.find?_eq_none, ciEq]

theorem findFee_some_mem (fees : List DeliveryFee) (w : String)
    (f : DeliveryFee) (h : findFee fees w = some f) :
    f ∈ fees ∧ lowerChars f.wilaya = lowerChars w := by
  refine ⟨List.mem_of_find?_eq_some h, ?_⟩
  have h1 := List.find?_some h
  simpa [ciEq] using h1

/-! Characterization of the product filter. -/

theorem containsSub_iff (l pat : List Char) :
    containsSub l pat = true ↔ pat <:+: l := by
  induction l with
  | nil => simp [containsSub, List.isEmpty_iff]
  | cons a tl ih =>
    simp [containsSub, Bool.or_eq_true, List.isPrefixOf_iff_prefix, ih,
      List.infix_cons_iff]

theorem containsCI_iff (s pat : String) :
    containsCI s pat = true ↔ lowerChars pat <:+: lowerChars s :=
  containsSub_iff _ _

theorem optContainsCI_iff (o : Option String) (pat : String) :
    optContainsCI o pat = true ↔
      ∃ d, o = some d ∧ lowerChars pat <:+: lowerChars d := by
  cases o <;> simp [optContainsCI, containsCI_iff]

theorem evalCond_textOr (p : Product) (s : String) :
    evalCond p (Cond.textOr s) = true ↔ qTextMatch s p := by
  simp only [evalCond, qTextMatch, Bool.or_eq_true, containsCI_iff,
    optContainsCI_iff]
  exact or_assoc

theorem strParam_all (o : Option String) (f : StrField) (p : Product) :
    (strParam o f).all (evalCond p) = true ↔ StrOk o f p := by
  cases o with
  | none => simp [strParam, StrOk]
  | some s =>
    by_cases hs : s = "" <;> simp [strParam, StrOk, hs, evalCond]

theorem priceParam_all (pmin pmax : Option ℚ) (p : Product) :
    (priceParam pmin pmax).all (evalCond p) = true ↔ PriceOk pmin pmax p := by
  cases pmin <;> cases pmax <;> simp [priceParam, evalCond, PriceOk]

theorem qParam_all (q : Option String) (p : Product) :
    (qParam q).all (evalCond p) = true ↔ QOk q p := by
  cases q with
  | none => simp [qParam, QOk]
  | some s =>
    by_cases hs : s = "" <;> simp [qParam, QOk, hs, evalCond_textOr]

theorem evalFilter_buildFilter (ps : ListParams) (p : Product) :
    evalFilter p (buildFilter ps) = true ↔ MatchesSpec ps p := by
  simp only [evalFilter, buildFilter, List.all_append, Bool.and_eq_true,
    MatchesSpec]
  rw [strParam_all, strParam_all, strParam_all, strParam_all, strParam_all,
    priceParam_all, qParam_all]
  tauto

theorem mem_list_products_sound (db : DocDB) (ps : ListParams) (p : Product)
    (h : p ∈ list_products db ps) : p ∈ db.products ∧ MatchesSpec ps p := by
  unfold list_products at h
  by_cases h0 : ps.limit = 0
  · simp only [h0, if_true] at h
    have := List.mem_filter.mp h
    exact ⟨this.1, (evalFilter_buildFilter ps p).mp this.2⟩
  · simp only [h0, if_false] at h
    have := List.mem_filter.mp (List.mem_of_mem_take h)
    exact ⟨this.1, (evalFilter_buildFilter ps p).mp this.2⟩

theorem mem_list_products (db : DocDB) (ps : ListParams) (p : Product)
    (h : noTruncation db ps) :
    p ∈ list_products db ps ↔ p ∈ db.products ∧ MatchesSpec ps p := by
  refine ⟨mem_list_products_sound db ps p, ?_⟩
  rintro ⟨hmem, hspec⟩
  have hf : p ∈ db.products.filter (fun x => evalFilter x (buildFilter ps)) :=
    List.mem_filter.mpr ⟨hmem, (evalFilter_buildFilter ps p).mpr hspec⟩
  unfold list_products
  rcases h with h0 | hle
  · simpa [h0] using hf
  · by_cases h0 : ps.limit = 0
    · simpa [h0] using hf
    · simpa [h0, List.take_of_length_le hle] using hf

theorem matchesSpec_q_split (ps : ListParams) (q : String) (p : Product)
    (hq : ps.q = some q) (hne : q ≠ "") :
    MatchesSpec ps p ↔ qTextMatch q p ∧ MatchesSpec { ps with q := none } p := by
  simp only [MatchesSpec, QOk, hq]
  constructor
  · rintro ⟨h1, h2, h3, h4, h5, h6, h7⟩
    exact ⟨h7 q rfl hne, h1, h2, h3, h4, h5, h6, by simp⟩
  · rintro ⟨hm, h1, h2, h3, h4, h5, h6, -⟩
    refine ⟨h1, h2, h3, h4, h5, h6, ?_⟩
    rintro s hs -
    obtain rfl : q = s := by simpa using hs
    exact hm

theorem matchesSpec_price_split (ps : ListParams) (p : Product) :
    MatchesSpec ps p ↔
      MatchesSpec { ps with price_min := none, price_max := none } p ∧
        PriceOk ps.price_min ps.price_max p := by
  simp only [MatchesSpec, PriceOk]
  constructor
  · rintro ⟨h1, h2, h3, h4, h5, h6, h7⟩
    exact ⟨⟨h1, h2, h3, h4, h5, by simp [PriceOk], h7⟩, h6⟩
  · rintro ⟨⟨h1, h2, h3, h4, h5, -, h7⟩, h6⟩
    exact ⟨h1, h2, h3, h4, h5, h6, h7⟩

/-! Case analysis of `update_order_status`. -/

theorem update_order_status_invalid (db : DocDB) (now oid : ℕ) (s : String)
    (hs : s ∉ allowedStatuses) :
    update_order_status db now oid s = (db, Except.error 400) := by
  have hb : allowedStatuses.contains s = false :=
    Bool.eq_false_iff.mpr (fun h => hs ((contains_iff _ _).mp h))
  unfold update_order_status
  rw [hb]
  rfl

theorem update_order_status_eq (db : DocDB) (now oid : ℕ) (s : String)
    (hb : allowedStatuses.contains s = true) :
    update_order_status db now oid s =
      (if (updateOne db.orders oid
            (fun o => { o with status := s, updated_at := some now })).2 = 0
       then ({ db with orders := (updateOne db.orders oid
                (fun o => { o with status := s, updated_at := some now })).1 },
             Except.error 404)
       else ({ db with orders := (updateOne db.orders oid
                (fun o => { o with status := s, updated_at := some now })).1 },
             Except.ok true)) := by
  unfold update_order_status
  rw [hb]
  rfl

theorem update_order_status_notfound (db : DocDB) (now oid : ℕ) (s : String)
    (hs : s ∈ allowedStatuses) (ho : lookupDoc db.orders oid = none) :
    update_order_status db now oid s = (db, Except.error 404) := by
  have hb : allowedStatuses.contains s = true := (contains_iff _ _).mpr hs
  have hu := updateOne_nomatch db.orders oid
    (fun o => { o with status := s, updated_at := some now }) ho
  rw [update_order_status_eq db now oid s hb, hu]
  rfl

theorem update_order_status_found (db : DocDB) (now oid : ℕ) (s : String)
    (o : Order) (hs : s ∈ allowedStatuses)
    (ho : lookupDoc db.orders oid = some o) :
    (update_order_status db now oid s).2 = Except.ok true ∧
      lookupDoc (update_order_status db now oid s).1.orders oid =
        some { o with status := s, updated_at := some now } := by
  have hb : allowedStatuses.contains s = true := (contains_iff _ _).mpr hs
  have hu := updateOne_match db.orders oid
    (fun x => { x with status := s, updated_at := some now }) o ho
  rw [update_order_status_eq db now oid s hb]
  constructor
  · simp [hu.1]
  · simp only [hu.1]
    norm_num
    exact hu.2

theorem update_order_status_orders_eq (db : DocDB) (now oid : ℕ) (s : String) :
    (update_order_status db now oid s).1.orders = db.orders ∨
      (update_order_status db now oid s).1.orders =
        (updateOne db.orders oid
          (fun o => { o with status := s, updated_at := some now })).1 := by
  by_cases hb : allowedStatuses.contains s = true
  · right
    rw [update_order_status_eq db now oid s hb]
    by_cases h0 : (updateOne db.orders oid
        (fun o => { o with status := s, updated_at := some now })).2 = 0 <;>
      simp [h0]
  · left
    have hs : s ∉ allowedStatuses := fun h => hb ((contains_iff _ _).mpr h)
    rw [update_order_status_invalid db now oid s hs]

/-! The claims. -/

/-- C1: every order persisted by `checkout` stores
`total = subtotal + delivery_fee`, with `subtotal` the sum over the
request's items of unit price times quantity and `delivery_fee` the
stored fee of the resolved wilaya, all computed server-side (the
`CheckoutRequest` carries no subtotal/total field); `update_order_status`
changes neither `items`, `subtotal`, `delivery_fee` nor `total` of any
stored order, so the invariant holds for every persisted order. -/
theorem C1_order_total_invariant (db : DocDB) (now : ℕ)
    (payload : CheckoutRequest) :
    (∀ feeDoc, findFee db.fees payload.wilaya = some feeDoc →
      ∃ o : Order,
        (checkout db now payload).1.orders = db.orders ++ [(db.nextId, o)] ∧
        (checkout db now payload).2 =
          Except.ok (db.nextId, o.total, o.delivery_fee) ∧
        o.items = payload.items ∧
        o.subtotal = subtotalOf payload.items ∧
        o.delivery_fee = feeDoc.fee ∧
        o.total = o.subtotal + o.delivery_fee) ∧
    (∀ now2 oid s,
      ((update_order_status db now2 oid s).1.orders).map
          (fun p => (p.1, p.2.items, p.2.subtotal, p.2.delivery_fee, p.2.total)) =
        db.orders.map
          (fun p => (p.1, p.2.items, p.2.subtotal, p.2.delivery_fee, p.2.total))) ∧
    ((∀ p ∈ db.orders, p.2.total = p.2.subtotal + p.2.delivery_fee) →
      (∀ p ∈ (checkout db now payload).1.orders,
        p.2.total = p.2.subtotal + p.2.delivery_fee) ∧
      (∀ now2 oid s, ∀ p ∈ (update_order_status db now2 oid s).1.orders,
        p.2.total = p.2.subtotal + p.2.delivery_fee)) := by
  refine ⟨?_, ?_, ?_⟩
  · intro feeDoc hf
    refine ⟨Order.mk payload.user_id payload.items payload.address
        payload.wilaya (subtotalOf payload.items) feeDoc.fee
        (subtotalOf payload.items + feeDoc.fee) "en_preparation"
        (some now) none, ?_, ?_, rfl, rfl, rfl, rfl⟩ <;>
      simp [checkout, hf, insertOrder]
  · intro now2 oid s
    rcases update_order_status_orders_eq db now2 oid s with h | h
    · rw [h]
    · rw [h]
      exact updateOne_map_proj db.orders oid _
        (fun o => (o.items, o.subtotal, o.delivery_fee, o.total))
        (fun x => rfl)
  · intro hinv
    constructor
    · cases hf : findFee db.fees payload.wilaya with
      | none =>
        intro p hp
        have he : (checkout db now payload).1.orders = db.orders := by
          simp [checkout, hf]
        exact hinv p (he ▸ hp)
      | some feeDoc =>
        intro p hp
        have he : (checkout db now payload).1.orders =
            db.orders ++ [(db.nextId,
              Order.mk payload.user_id payload.items payload.address
                payload.wilaya (subtotalOf payload.items) feeDoc.fee
                (subtotalOf payload.items + feeDoc.fee) "en_preparation"
                (some now) none)] := by
          simp [checkout, hf, insertOrder]
        rw [he] at hp
        rcases List.mem_append.mp hp with h | h
        · exact hinv p h
        · obtain rfl : p = _ := by simpa using h
          rfl
    · intro now2 oid s
      rcases update_order_status_orders_eq db now2 oid s with h | h
      · rw [h]; exact hinv
      · rw [h]
        exact updateOne_preserves
          (fun o => o.total = o.subtotal + o.delivery_fee) db.orders oid
          (fun o => { o with status := s, updated_at := some now2 })
          (fun x hx => by exact hx) hinv

/-- C1 witness: on the sample database, checking out one 2500-dinar lens
to `alger` (fee 400) returns order identifier 2, total 2900 and fee 400. -/
theorem C1_witness :
    (checkout dbSample 5 checkoutSample).2 = Except.ok (2, 2900, 400) := by
  obtain ⟨o, -, h2, -, h4, h5, h6⟩ :=
    (C1_order_total_invariant dbSample 5 checkoutSample).1 feeAlger (by decide)
  rw [h2, h6, h4, h5]
  norm_num [dbSample, checkoutSample, subtotalOf, itemLens, feeAlger]

/-- C2: when no stored fee row matches the request's wilaya
case-insensitively, `checkout` fails with a 400 client error and leaves
the database — in particular the order collection — unchanged. -/
theorem C2_unresolvable_fee (db : DocDB) (now : ℕ)
    (payload : CheckoutRequest)
    (h : ∀ f ∈ db.fees, lowerChars f.wilaya ≠ lowerChars payload.wilaya) :
    checkout db now payload = (db, Except.error 400) := by
  have hf : findFee db.fees payload.wilaya = none :=
    (findFee_none_iff _ _).mpr h
  simp [checkout, hf]

/-- C2 witness: checking out to `Paris`, absent from the fee table,
fails with 400 and leaves the sample database unchanged. -/
theorem C2_witness :
    checkout dbSample 0 checkoutNoFee = (dbSample, Except.error 400) :=
  C2_unresolvable_fee dbSample 0 checkoutNoFee (by decide)

/-- C3: `update_order_status` errors exactly when the requested status
is outside the four-element vocabulary (400, checked first, before any
store access) or no order has the given identifier (404); in every
error case the returned database equals the input database, so no order
— in particular its `status` and `updated_at` — is mutated. -/
theorem C3_status_update_errors (db : DocDB) (now oid : ℕ) (s : String) :
    ((∃ e, (update_order_status db now oid s).2 = Except.error e) ↔
      (s ∉ allowedStatuses ∨ lookupDoc db.orders oid = none)) ∧
    (s ∉ allowedStatuses →
      update_order_status db now oid s = (db, Except.error 400)) ∧
    (s ∈ allowedStatuses → lookupDoc db.orders oid = none →
      update_order_status db now oid s = (db, Except.error 404)) ∧
    (∀ e, (update_order_status db now oid s).2 = Except.error e →
      (update_order_status db now oid s).1 = db) := by
  by_cases hs : s ∈ allowedStatuses
  · cases ho : lookupDoc db.orders oid with
    | none =>
      have hr := update_order_status_notfound db now oid s hs ho
      refine ⟨?_, fun h => absurd hs h, fun _ _ => hr, ?_⟩
      · rw [hr]; exact iff_of_true ⟨404, rfl⟩ (Or.inr rfl)
      · intro e _; rw [hr]
    | some o =>
      have hr := update_order_status_found db now oid s o hs ho
      refine ⟨?_, fun h => absurd hs h, ?_, ?_⟩
      · rw [hr.1]
        refine iff_of_false (by rintro ⟨e, he⟩; exact Except.noConfusion he) ?_
        rintro (h | h)
        · exact h hs
        · exact Option.noConfusion h
      · intro _ h; exact Option.noConfusion h
      · intro e he; rw [hr.1] at he; exact Except.noConfusion he
  · have hr := update_order_status_invalid db now oid s hs
    refine ⟨?_, fun _ => hr, fun h => absurd h hs, ?_⟩
    · rw [hr]; exact iff_of_true ⟨400, rfl⟩ (Or.inl hs)
    · intro e _; rw [hr]

/-- C3 witness: the non-vocabulary status `shipped` is rejected with
400 on the sample database and the database, hence the existing order's
stored status and `updated_at`, is unchanged. -/
theorem C3_witness :
    update_order_status dbSample 7 1 "shipped" = (dbSample, Except.error 400) :=
  (C3_status_update_errors dbSample 7 1 "shipped").2.1 (by decide)

/-- C4: for every existing order and every requested status inside the
four-element vocabulary, the update is accepted regardless of the
order's current status (set membership only, no sequencing), the stored
status becomes the requested value and `updated_at` is refreshed to the
current timestamp. -/
theorem C4_status_update_accepts (db : DocDB) (now oid : ℕ) (s : String)
    (o : Order) (hs : s ∈ allowedStatuses)
    (ho : lookupDoc db.orders oid = some o) :
    (update_order_status db now oid s).2 = Except.ok true ∧
      lookupDoc (update_order_status db now oid s).1.orders oid =
        some { o with status := s, updated_at := some now } :=
  update_order_status_found db now oid s o hs ho

/-- C4 witness: the sample order, currently `en_preparation`, jumps
directly to `livree`: accepted, status set, `updated_at` refreshed. -/
theorem C4_witness :
    (update_order_status dbSample 7 1 "livree").2 = Except.ok true ∧
      lookupDoc (update_order_status dbSample 7 1 "livree").1.orders 1 =
        some { orderSample with status := "livree", updated_at := some 7 } :=
  C4_status_update_accepts dbSample 7 1 "livree" orderSample (by decide)
    (by decide)

/-- C5: registration pre-checks email uniqueness: a second registration
with an email already stored fails with a 400 conflict and leaves the
database unchanged (no user document created), and registration
preserves the invariant that at most one user document exists per
email. -/
theorem C5_email_uniqueness (hash : String → String) (db : DocDB) (now : ℕ)
    (payload : RegisterRequest) :
    ((∃ p ∈ db.users, p.2.email = payload.email) →
      register hash db now payload = (db, Except.error 400)) ∧
    (db.users.Pairwise (fun a b => a.2.email ≠ b.2.email) →
      ((register hash db now payload).1.users).Pairwise
        (fun a b => a.2.email ≠ b.2.email)) := by
  cases hfind : db.users.find? (fun p => p.2.email == payload.email) with
  | some q =>
    constructor
    · intro _; simp [register, hfind]
    · intro hp
      have : (register hash db now payload).1.users = db.users := by
        simp [register, hfind]
      rw [this]; exact hp
  | none =>
    have hall := List.find?_eq_none.mp hfind
    constructor
    · rintro ⟨p, hp, he⟩
      exact absurd (by simpa using he) (by simpa using hall p hp)
    · intro hp
      have hu : (register hash db now payload).1.users =
          db.users ++ [(db.nextId,
            { name := payload.name, email := payload.email,
              password_hash := hash payload.password, phone := none,
              addresses := [], created_at := some now,
              updated_at := none })] := by
        simp [register, hfind, insertUser]
      rw [hu, List.pairwise_append]
      refine ⟨hp, by simp, ?_⟩
      intro a ha b hb
      obtain rfl : b = (db.nextId, _) := by simpa using hb
      have hne : a.2.email ≠ payload.email := by simpa using hall a ha
      exact hne

/-- C5 witness: registering a second user with `userSample`'s email on
the sample database fails with 400 and creates no user document. -/
theorem C5_witness :
    register id dbSample 3 registerDup = (dbSample, Except.error 400) := by
  exact (C5_email_uniqueness id dbSample 3 registerDup).1 (by decide)

/-- C6: the delivery-fee lookup fails with 404 exactly when no stored
fee row's wilaya is case-insensitively equal to the query; on success it
returns the wilaya and fee of a stored row that matches
case-insensitively; and `checkout` resolves its fee by the same rule:
it errors exactly when the lookup for the request's wilaya is a 404,
and the fee it returns is the fee the lookup returns. -/
theorem C6_fee_lookup (db : DocDB) (w : String) :
    ((get_delivery_fee db w = Except.error 404) ↔
      ∀ f ∈ db.fees, lowerChars f.wilaya ≠ lowerChars w) ∧
    (∀ w' fee, get_delivery_fee db w = Except.ok (w', fee) →
      ∃ f ∈ db.fees, f.wilaya = w' ∧ f.fee = fee ∧
        lowerChars f.wilaya = lowerChars w) ∧
    (∀ now payload, CheckoutRequest.wilaya payload = w →
      ((∃ e, (checkout db now payload).2 = Except.error e) ↔
        get_delivery_fee db w = Except.error 404) ∧
      (∀ oid total fee,
        (checkout db now payload).2 = Except.ok (oid, total, fee) →
        ∃ w', get_delivery_fee db w = Except.ok (w', fee))) := by
  cases hf : findFee db.fees w with
  | none =>
    have hg : get_delivery_fee db w = Except.error 404 := by
      simp [get_delivery_fee, hf]
    refine ⟨?_, ?_, ?_⟩
    · rw [hg]; exact iff_of_true rfl ((findFee_none_iff _ _).mp hf)
    · intro w' fee h; rw [hg] at h; exact Except.noConfusion h
    · rintro now payload rfl
      have hc : checkout db now payload = (db, Except.error 400) := by
        simp [checkout, hf]
      constructor
      · rw [hc, hg]; exact iff_of_true ⟨400, rfl⟩ rfl
      · intro oid total fee h; rw [hc] at h; exact Except.noConfusion h
  | some f =>
    have hg : get_delivery_fee db w = Except.ok (f.wilaya, f.fee) := by
      simp [get_delivery_fee, hf]
    have hmem := findFee_some_mem db.fees w f hf
    refine ⟨?_, ?_, ?_⟩
    · rw [hg]
      refine iff_of_false (fun h => Except.noConfusion h) ?_
      intro hall; exact hall f hmem.1 hmem.2
    · intro w' fee h
      rw [hg] at h
      have hp := Except.ok.inj h
      exact ⟨f, hmem.1, congrArg Prod.fst hp, congrArg Prod.snd hp, hmem.2⟩
    · rintro now payload rfl
      have hc : (checkout db now payload).2 =
          Except.ok (db.nextId, subtotalOf payload.items + f.fee, f.fee) := by
        simp [checkout, hf, insertOrder]
      constructor
      · rw [hc, hg]
        exact iff_of_false (by rintro ⟨e, he⟩; exact Except.noConfusion he)
          (fun h => Except.noConfusion h)
      · intro oid total fee h
        rw [hc] at h
        have hfee : fee = f.fee := by
          have := congrArg (fun t => t.2.2) (Except.ok.inj h)
          simpa using this.symm
        exact ⟨f.wilaya, by rw [hg, hfee]⟩

/-- C6 witness: looking up `alger` against the sample fee table resolves
to the stored row `Alger` with fee 400 under case-insensitive equality. -/
theorem C6_witness :
    ∃ f ∈ dbSample.fees, f.wilaya = "Alger" ∧ f.fee = 400 ∧
      lowerChars f.wilaya = lowerChars "alger" := by
  exact (C6_fee_lookup dbSample "alger").2.1 "Alger" 400 (by rfl)

/-- C7: for a provided free-text parameter `q`, and absent a result-size
truncation, a product is returned exactly when it is stored, `q` occurs
case-insensitively as a substring of its title, description or brand
(OR of the three), and it satisfies every other provided filter (AND);
moreover a parameter set with every dimension absent constrains
nothing. -/
theorem C7_free_text_search (db : DocDB) (ps : ListParams) (q : String)
    (p : Product) (hq : ps.q = some q) (hne : q ≠ "")
    (hcap : noTruncation db ps) :
    (p ∈ list_products db ps ↔
      p ∈ db.products ∧ qTextMatch q p ∧
        MatchesSpec { ps with q := none } p) ∧
    (∀ p' : Product,
      evalFilter p' (buildFilter
        { q := none, category := none, brand := none, color := none,
          frame_shape := none, type := none, price_min := none,
          price_max := none, limit := ps.limit }) = true) := by
  constructor
  · rw [mem_list_products db ps p hcap, matchesSpec_q_split ps q p hq hne]
  · intro p'
    simp [buildFilter, strParam, priceParam, qParam, evalFilter]

/-- C7 witness: searching the sample catalogue for `lentille` returns
the lens product, whose title contains `Lentilles`. -/
theorem C7_witness :
    productLens ∈ list_products dbSample lensSearch := by
  refine ((C7_free_text_search dbSample lensSearch "lentille" productLens
      rfl (by decide) (Or.inr (by decide))).1).mpr
    ⟨by decide, Or.inl ((containsSub_iff _ _).mp (by decide)), ?_⟩
  simp [MatchesSpec, StrOk, PriceOk, QOk, lensSearch]

/-- C8: every product returned under a provided `price_min`/`price_max`
bound satisfies the corresponding inclusive inequality (absent bounds
impose nothing), and conversely a stored product that satisfies the
other filters and both inclusive bounds — in particular one priced
exactly at a bound — is returned, absent truncation. -/
theorem C8_price_bounds (db : DocDB) (ps : ListParams) (p : Product) :
    (p ∈ list_products db ps →
      (∀ a, ps.price_min = some a → a ≤ p.price) ∧
      (∀ b, ps.price_max = some b → p.price ≤ b)) ∧
    (p ∈ db.products → noTruncation db ps →
      MatchesSpec { ps with price_min := none, price_max := none } p →
      (∀ a, ps.price_min = some a → a ≤ p.price) →
      (∀ b, ps.price_max = some b → p.price ≤ b) →
      p ∈ list_products db ps) := by
  constructor
  · intro h
    exact ((matchesSpec_price_split ps p).mp
      (mem_list_products_sound db ps p h).2).2
  · intro hmem hcap hrest ha hb
    rw [mem_list_products db ps p hcap]
    exact ⟨hmem, (matchesSpec_price_split ps p).mpr ⟨hrest, ha, hb⟩⟩

/-- C8 witness: with bounds `[1000, 5000]`, the sample product priced
exactly 1000 is returned (inclusive lower bound). -/
theorem C8_witness :
    productSolution ∈ list_products dbSample priceSearch := by
  exact (C8_price_bounds dbSample priceSearch productSolution).2
    (by decide) (Or.inr (by decide))
    (by simp [MatchesSpec, StrOk, PriceOk, QOk, priceSearch])
    (by norm_num [priceSearch, productSolution])
    (by norm_num [priceSearch, productSolution])

/-- C9: checkout accepts an empty items list — nothing in the request
schema or the handler requires non-emptiness: with a resolvable wilaya
it persists an order with subtotal 0 and total equal to the delivery
fee, and returns that total and fee. -/
theorem C9_empty_cart (db : DocDB) (now : ℕ) (payload : CheckoutRequest)
    (feeDoc : DeliveryFee) (hitems : payload.items = [])
    (hfee : findFee db.fees payload.wilaya = some feeDoc) :
    ∃ o : Order,
      checkout db now payload =
        ({ db with
            orders := db.orders ++ [(db.nextId, o)],
            nextId := db.nextId + 1 },
         Except.ok (db.nextId, feeDoc.fee, feeDoc.fee)) ∧
      o.items = [] ∧ o.subtotal = 0 ∧ o.delivery_fee = feeDoc.fee ∧
      o.total = feeDoc.fee := by
  have hsub : subtotalOf payload.items = 0 := by rw [hitems]; rfl
  refine ⟨Order.mk payload.user_id payload.items payload.address
      payload.wilaya (subtotalOf payload.items) feeDoc.fee
      (subtotalOf payload.items + feeDoc.fee) "en_preparation"
      (some now) none, ?_, hitems, hsub, rfl, ?_⟩
  · simp [checkout, hfee, insertOrder, hsub]
  · show subtotalOf payload.items + feeDoc.fee = feeDoc.fee
    rw [hsub, zero_add]

/-- C9 witness: checking out the empty cart to `Alger` on the sample
database creates an order with subtotal 0 and total 400 (the fee). -/
theorem C9_witness :
    ∃ o : Order,
      checkout dbSample 4 checkoutEmpty =
        ({ dbSample with
            orders := dbSample.orders ++ [(dbSample.nextId, o)],
            nextId := dbSample.nextId + 1 },
         Except.ok (dbSample.nextId, feeAlger.fee, feeAlger.fee)) ∧
      o.items = [] ∧ o.subtotal = 0 ∧ o.delivery_fee = feeAlger.fee ∧
      o.total = feeAlger.fee :=
  C9_empty_cart dbSample 4 checkoutEmpty feeAlger rfl (by decide)

/-- C10: address removal never reports not-found: it always returns,
with `deleted = true` exactly when the identified user exists and owns
at least one address with the given label (every such address is
pulled), and `deleted = false` otherwise — whereas address addition
fails with 404 for an unknown user and leaves the database unchanged. -/
theorem C10_delete_address_total (db : DocDB) (uid : ℕ) (label : String) :
    ((delete_address db uid label).2 = true ↔
      ∃ u, lookupDoc db.users uid = some u ∧
        ∃ a ∈ u.addresses, a.label = label) ∧
    (lookupDoc db.users uid = none →
      ∀ addr, add_address db uid addr = (db, Except.error 404)) := by
  constructor
  · have hd : (delete_address db uid label).2 =
        decide (0 < (pullAddress db.users uid label).2.2) := rfl
    rw [hd, decide_eq_true_iff]
    exact pullAddress_modified_iff db.users uid label
  · intro h addr
    have hu := updateOne_nomatch db.users uid
      (fun u => { u with addresses := u.addresses ++ [addr] }) h
    unfold add_address
    rw [hu]
    rfl

/-- C10 witness: deleting the label `Home` owned by the sample user
reports `deleted = true`. -/
theorem C10_witness :
    (delete_address dbSample 0 "Home").2 = true := by
  exact ((C10_delete_address_total dbSample 0 "Home").1).mpr
    ⟨userSample, by decide, addrAlger, by decide, rfl⟩

end VH
